import Mathlib

/-!
Verification development for the sc2-driver-io telemetry pipeline.

The repository's concurrency core (bounded queues, fan-out dispatcher,
sink workers, ingest loop, health monitor) is specified in `README.md`
and `docs/WORKFLOW_SUMMARY.md`; the C++ sources under `backend/` hold
the telemetry fan-out (`Telemetry::sendData`, `SendDataTask`) and the
process entry point.  Components whose implementation is not in the
sources are modelled operationally from the specification, with queue
capacities and overflow policies taken from the `Queue Configurations`
table of `README.md`.
-/

namespace SC2

/-- Overflow policy of a bounded queue, from the spec: drop-oldest or
keep-latest-only. -/
inductive OverflowPolicy where
  | dropOldest
  | keepLatest
deriving DecidableEq, Repr

/-- Modelled from the spec: the Bounded Queue component (`push`/`pop`
with a fixed capacity and a configured overflow policy); the queue
implementation itself is not among the repository's C++ sources.  The
item list is ordered front-first (head = oldest). -/
structure BQueue (α : Type) where
  cap : Nat
  policy : OverflowPolicy
  items : List α
deriving Repr

/-- Non-blocking push: if the queue is full it applies the overflow
policy (drop-oldest: discard the head and append; keep-latest-only:
keep only the new item) and reports whether an item was dropped. -/
def BQueue.push {α : Type} (q : BQueue α) (x : α) : Bool × BQueue α :=
  if q.items.length < q.cap then
    (false, { q with items := q.items ++ [x] })
  else
    match q.policy with
    | OverflowPolicy.dropOldest => (true, { q with items := q.items.tail ++ [x] })
    | OverflowPolicy.keepLatest => (true, { q with items := [x] })

/-- Pop the oldest item, if any. -/
def BQueue.pop {α : Type} (q : BQueue α) : Option α × BQueue α :=
  match q.items with
  | [] => (none, q)
  | x :: rest => (some x, { q with items := rest })

/-- Queue operations issued by producers and consumers. -/
inductive QOp (α : Type) where
  | push (x : α)
  | pop
deriving Repr

/-- A queue together with the log of items pushed so far and the log of
items popped so far (both oldest-first). -/
structure QState (α : Type) where
  q : BQueue α
  pushed : List α
  popped : List α

/-- One queue operation applied to a logged queue state. -/
def stepOp {α : Type} (s : QState α) : QOp α → QState α
  | QOp.push x => { s with q := (s.q.push x).2, pushed := s.pushed ++ [x] }
  | QOp.pop =>
      match s.q.items with
      | [] => s
      | y :: rest => { s with q := { s.q with items := rest }, popped := s.popped ++ [y] }

theorem stepOp_pop_nil {α : Type} (s : QState α) (h : s.q.items = []) :
    stepOp s QOp.pop = s := by
  simp [stepOp, h]

theorem stepOp_pop_cons {α : Type} (s : QState α) (y : α) (rest : List α)
    (h : s.q.items = y :: rest) :
    stepOp s QOp.pop
      = { s with q := { s.q with items := rest }, popped := s.popped ++ [y] } := by
  simp [stepOp, h]

/-- Run a sequence of queue operations. -/
def runOps {α : Type} (s : QState α) (ops : List (QOp α)) : QState α :=
  ops.foldl stepOp s

/-- The empty logged queue of a given capacity and policy. -/
def initQState (α : Type) (cap : Nat) (pol : OverflowPolicy) : QState α :=
  { q := { cap := cap, policy := pol, items := [] }, pushed := [], popped := [] }

/-- The invariant carried through every queue run: the popped log
followed by the current contents is a sublist of the push log, and the
depth never exceeds the capacity. -/
def QInv {α : Type} (s : QState α) : Prop :=
  (s.popped ++ s.q.items).Sublist s.pushed ∧ s.q.items.length ≤ s.q.cap

theorem push_length_le {α : Type} (q : BQueue α) (x : α) (hcap : 0 < q.cap)
    (hlen : q.items.length ≤ q.cap) : (q.push x).2.items.length ≤ q.cap := by
  unfold BQueue.push
  by_cases h : q.items.length < q.cap
  · simp [h]
    omega
  · simp [h]
    cases hp : q.policy <;> simp
    · omega
    · omega

theorem push_cap_eq {α : Type} (q : BQueue α) (x : α) : (q.push x).2.cap = q.cap := by
  unfold BQueue.push
  by_cases h : q.items.length < q.cap
  · simp [h]
  · simp [h]
    cases hp : q.policy <;> simp

theorem push_policy_eq {α : Type} (q : BQueue α) (x : α) : (q.push x).2.policy = q.policy := by
  unfold BQueue.push
  by_cases h : q.items.length < q.cap
  · simp [h]
  · simp [h]
    cases hp : q.policy <;> simp

/-- Push reports a drop exactly when the queue was already full. -/
theorem push_dropped_iff {α : Type} (q : BQueue α) (x : α)
    (hlen : q.items.length ≤ q.cap) :
    (q.push x).1 = true ↔ q.items.length = q.cap := by
  unfold BQueue.push
  by_cases h : q.items.length < q.cap
  · simp [h]
    omega
  · simp [h]
    constructor
    · intro _
      omega
    · intro _
      cases hp : q.policy <;> simp

theorem stepOp_inv {α : Type} (s : QState α) (op : QOp α) (hcap : 0 < s.q.cap)
    (hinv : QInv s) : QInv (stepOp s op) := by
  obtain ⟨hsub, hlen⟩ := hinv
  cases op with
  | push x =>
      constructor
      · show (s.popped ++ (s.q.push x).2.items).Sublist (s.pushed ++ [x])
        unfold BQueue.push
        by_cases h : s.q.items.length < s.q.cap
        · simp only [h, if_true]
          have : (s.popped ++ (s.q.items ++ [x])) = (s.popped ++ s.q.items) ++ [x] := by
            simp
          rw [this]
          exact hsub.append (List.Sublist.refl [x])
        · simp only [h, if_false]
          cases hp : s.q.policy
          · simp only
            have h1 : (s.popped ++ (s.q.items.tail ++ [x])) =
                (s.popped ++ s.q.items.tail) ++ [x] := by simp
            rw [h1]
            have h2 : (s.popped ++ s.q.items.tail).Sublist (s.popped ++ s.q.items) :=
              (List.tail_sublist s.q.items).append_left s.popped
            exact (h2.trans hsub).append (List.Sublist.refl [x])
          · simp only
            have h2 : s.popped.Sublist (s.popped ++ s.q.items) :=
              List.sublist_append_left s.popped s.q.items
            have h3 : (s.popped ++ [x]).Sublist (s.pushed ++ [x]) :=
              (h2.trans hsub).append (List.Sublist.refl [x])
            exact h3
      · show (s.q.push x).2.items.length ≤ (s.q.push x).2.cap
        rw [push_cap_eq]
        exact push_length_le s.q x hcap hlen
  | pop =>
      cases h : s.q.items with
      | nil =>
          rw [stepOp_pop_nil s h]
          exact ⟨hsub, hlen⟩
      | cons y rest =>
          rw [stepOp_pop_cons s y rest h]
          constructor
          · show ((s.popped ++ [y]) ++ rest).Sublist s.pushed
            have h1 : (s.popped ++ [y]) ++ rest = s.popped ++ (y :: rest) := by simp
            rw [h1, ← h]
            exact hsub
          · show rest.length ≤ s.q.cap
            have h2 : s.q.items.length = rest.length + 1 := by rw [h]; simp
            omega

theorem stepOp_cap {α : Type} (s : QState α) (op : QOp α) :
    (stepOp s op).q.cap = s.q.cap := by
  cases op with
  | push x => exact push_cap_eq s.q x
  | pop =>
      cases h : s.q.items with
      | nil => rw [stepOp_pop_nil s h]
      | cons y rest => rw [stepOp_pop_cons s y rest h]

theorem runOps_inv {α : Type} (ops : List (QOp α)) (s : QState α) (hcap : 0 < s.q.cap)
    (hinv : QInv s) : QInv (runOps s ops) := by
  induction ops generalizing s with
  | nil => exact hinv
  | cons op rest ih =>
      show QInv (runOps (stepOp s op) rest)
      exact ih (stepOp s op) (by rw [stepOp_cap]; exact hcap) (stepOp_inv s op hcap hinv)

theorem runOps_cap {α : Type} (ops : List (QOp α)) (s : QState α) :
    (runOps s ops).q.cap = s.q.cap := by
  induction ops generalizing s with
  | nil => rfl
  | cons op rest ih =>
      show (runOps (stepOp s op) rest).q.cap = s.q.cap
      rw [ih, stepOp_cap]

theorem runOps_popped_sublist {α : Type} (cap : Nat) (pol : OverflowPolicy)
    (ops : List (QOp α)) (hcap : 0 < cap) :
    (runOps (initQState α cap pol) ops).popped.Sublist
      (runOps (initQState α cap pol) ops).pushed := by
  have hinv : QInv (runOps (initQState α cap pol) ops) := by
    refine runOps_inv ops (initQState α cap pol) hcap ⟨?_, ?_⟩
    · exact List.Sublist.refl []
    · simp [initQState]
  have h1 : (runOps (initQState α cap pol) ops).popped.Sublist
      ((runOps (initQState α cap pol) ops).popped
        ++ (runOps (initQState α cap pol) ops).q.items) :=
    List.sublist_append_left _ _
  exact h1.trans hinv.1

theorem runOps_length_le {α : Type} (cap : Nat) (pol : OverflowPolicy)
    (ops : List (QOp α)) (hcap : 0 < cap) :
    (runOps (initQState α cap pol) ops).q.items.length ≤ cap := by
  have hinv : QInv (runOps (initQState α cap pol) ops) := by
    refine runOps_inv ops (initQState α cap pol) hcap ⟨?_, ?_⟩
    · exact List.Sublist.refl []
    · simp [initQState]
  have h2 := hinv.2
  rw [runOps_cap] at h2
  simpa [initQState] using h2

theorem push_full_dropOldest {α : Type} (q : BQueue α) (x : α)
    (hfull : q.items.length = q.cap) (hpol : q.policy = OverflowPolicy.dropOldest) :
    (q.push x).2.items = q.items.tail ++ [x] := by
  unfold BQueue.push
  have h : ¬ q.items.length < q.cap := by omega
  simp [h, hpol]

theorem push_full_keepLatest {α : Type} (q : BQueue α) (x : α)
    (hfull : q.items.length = q.cap) (hpol : q.policy = OverflowPolicy.keepLatest) :
    (q.push x).2.items = [x] := by
  unfold BQueue.push
  have h : ¬ q.items.length < q.cap := by omega
  simp [h, hpol]

theorem push_not_full {α : Type} (q : BQueue α) (x : α)
    (hlt : q.items.length < q.cap) : (q.push x).2.items = q.items ++ [x] := by
  unfold BQueue.push
  simp [hlt]

/-- C2: `push(item)` never waits on a full queue — it applies the
queue's configured overflow policy (drop-oldest: discard the oldest
enqueued item and insert; keep-latest: overwrite with the new item) and
returns true exactly when an item was dropped; and across any sequence
of pushes and pops, the popped items appear in the relative order in
which they were pushed (FIFO among items that are not dropped: the pop
log is a sublist of the push log). -/
theorem C2_bounded_queue_contract {α : Type} (q : BQueue α) (x : α)
    (cap : Nat) (pol : OverflowPolicy) (ops : List (QOp α))
    (hlen : q.items.length ≤ q.cap) (hcap : 0 < cap) :
    ((q.push x).1 = true ↔ q.items.length = q.cap)
    ∧ (q.items.length = q.cap → q.policy = OverflowPolicy.dropOldest →
        (q.push x).2.items = q.items.tail ++ [x])
    ∧ (q.items.length = q.cap → q.policy = OverflowPolicy.keepLatest →
        (q.push x).2.items = [x])
    ∧ (q.items.length < q.cap → (q.push x).2.items = q.items ++ [x])
    ∧ (runOps (initQState α cap pol) ops).popped.Sublist
        (runOps (initQState α cap pol) ops).pushed := by
  refine ⟨push_dropped_iff q x hlen, ?_, ?_, ?_, ?_⟩
  · intro hfull hpol
    exact push_full_dropOldest q x hfull hpol
  · intro hfull hpol
    exact push_full_keepLatest q x hfull hpol
  · intro hlt
    exact push_not_full q x hlt
  · exact runOps_popped_sublist cap pol ops hcap

/-- A concrete single-slot keep-latest queue holding one item. -/
def qWitness : BQueue Nat :=
  { cap := 1, policy := OverflowPolicy.keepLatest, items := [9] }

/-- A concrete mixed sequence of queue operations. -/
def opsWitness : List (QOp Nat) := [QOp.push 3, QOp.push 5, QOp.pop]

theorem C2_bounded_queue_contract_witness :
    qWitness.items.length ≤ qWitness.cap ∧ 0 < 2
    ∧ (((qWitness.push 4).1 = true ↔ qWitness.items.length = qWitness.cap)
       ∧ (qWitness.items.length = qWitness.cap →
           qWitness.policy = OverflowPolicy.dropOldest →
           (qWitness.push 4).2.items = qWitness.items.tail ++ [4])
       ∧ (qWitness.items.length = qWitness.cap →
           qWitness.policy = OverflowPolicy.keepLatest →
           (qWitness.push 4).2.items = [4])
       ∧ (qWitness.items.length < qWitness.cap →
           (qWitness.push 4).2.items = qWitness.items ++ [4])
       ∧ (runOps (initQState Nat 2 OverflowPolicy.dropOldest) opsWitness).popped.Sublist
           (runOps (initQState Nat 2 OverflowPolicy.dropOldest) opsWitness).pushed) :=
  ⟨by decide, by decide,
    C2_bounded_queue_contract qWitness 4 2 OverflowPolicy.dropOldest opsWitness
      (by decide) (by decide)⟩

/-- Dashboard (presentation) queue configuration, from the
`Queue Configurations` table of `README.md`: name `dashboard_queue`,
max size 10, overflow behavior keep latest. -/
def dashboardQueueCapacity : Nat := 10

/-- The presentation sink's queue as configured in `README.md`. -/
def dashboardQueue : BQueue Nat :=
  { cap := dashboardQueueCapacity, policy := OverflowPolicy.keepLatest, items := [] }

/-- C7 counterexample: the claim says the presentation sink's queue has
capacity exactly 1 and never holds more than one buffered frame, but
`README.md` configures `dashboard_queue` with max size 10; after two
pushes the queue buffers two frames at once. -/
theorem C7_capacity_one_counterexample :
    ((dashboardQueue.push 1).2.push 2).2.items.length = 2
    ∧ dashboardQueue.cap ≠ 1 := by
  decide

/-- C7 (amended): the presentation sink's queue has capacity 10 with
keep-latest overflow; at every instant of every run it holds at most 10
buffered frames, and a push when it is full keeps only the latest
frame. -/
theorem C7_dashboard_queue_bounded (ops : List (QOp Nat)) :
    (runOps (initQState Nat dashboardQueueCapacity OverflowPolicy.keepLatest)
        ops).q.items.length ≤ dashboardQueueCapacity
    ∧ (∀ q : BQueue Nat, q.cap = dashboardQueueCapacity →
        q.policy = OverflowPolicy.keepLatest →
        q.items.length = dashboardQueueCapacity →
        ∀ x, (q.push x).2.items = [x]) := by
  constructor
  · exact runOps_length_le dashboardQueueCapacity OverflowPolicy.keepLatest ops
      (by decide)
  · intro q hc hp hf x
    exact push_full_keepLatest q x (by rw [hf, hc]) hp

/-- A concrete full dashboard queue. -/
def dashboardFull : BQueue Nat :=
  { cap := 10, policy := OverflowPolicy.keepLatest,
    items := [0, 1, 2, 3, 4, 5, 6, 7, 8, 9] }

theorem C7_dashboard_queue_bounded_witness :
    (runOps (initQState Nat dashboardQueueCapacity OverflowPolicy.keepLatest)
        [QOp.push 3, QOp.push 4]).q.items.length ≤ dashboardQueueCapacity
    ∧ (dashboardFull.push 7).2.items = [7] :=
  ⟨(C7_dashboard_queue_bounded [QOp.push 3, QOp.push 4]).1,
    (C7_dashboard_queue_bounded []).2 dashboardFull rfl rfl (by decide) 7⟩

/-- Per-cycle cost breakdown of the ingest critical path, from the
`Performance Targets` breakdown of `README.md` (CAN RX, GPS read, lap
counter computation, byte array modification, queue operations). -/
structure CycleCosts where
  canRx : Nat
  gpsRead : Nat
  lapComp : Nat
  byteModify : Nat
  queueOp : Nat
deriving Repr

/-- Observed per-frame latency of one ingest cycle: the sum of the
critical-path step costs; it involves no sink queue. -/
def ingestLatency (c : CycleCosts) : Nat :=
  c.canRx + c.gpsRead + c.lapComp + c.byteModify + c.queueOp

/-- Modelled from the spec: pipeline state shared by the ingest loop
and the fan-out dispatcher — a main queue feeding per-sink bounded
queues; the dispatcher itself is not among the repository's C++
sources. -/
structure PipelineState (α : Type) where
  mainQ : BQueue α
  sinkQs : List (BQueue α)

/-- One ingest cycle: push the augmented frame into the main queue
(non-blocking) and record the cycle latency; sink queues are never
touched by ingest. -/
def ingestStep {α : Type} (st : PipelineState α) (frame : α) (c : CycleCosts) :
    PipelineState α × Nat :=
  ({ st with mainQ := (st.mainQ.push frame).2 }, ingestLatency c)

/-- Modelled from the spec: the fan-out dispatcher attempts a `push` of
the dequeued frame into every configured sink queue, independently. -/
def dispatchFrame {α : Type} (frame : α) (sinks : List (BQueue α)) : List (BQueue α) :=
  sinks.map fun q => (q.push frame).2

/-- Embedding of `Telemetry::sendData`
(`backend/telemetrylib/telemetry.cpp` lines 33-43): for each
communication channel a `SendDataTask` carrying the channel, the byte
buffer and the timestamp is created and submitted; no channel's task
depends on any other channel. -/
def sendDataTasks (comm : List Nat) (bytes : List Nat) (timestamp : Int) :
    List (Nat × List Nat × Int) :=
  comm.map fun ch => (ch, bytes, timestamp)

/-- C1: a full queue for sink `i` triggers only sink `i`'s overflow
policy — the frame is still pushed into every other configured sink
queue, each sink's resulting queue is exactly its own push result (so
no other sink's contents change except by its own push), the ingest
loop's per-frame latency and main-queue effect are independent of any
sink queue's contents (so a deliberately saturated sink cannot affect
them), and `Telemetry::sendData` hands every channel its own task for
the frame. -/
theorem C1_full_sink_isolation {α : Type} (frame : α)
    (sinks sinks2 : List (BQueue α)) (i : Nat)
    (hagree : ∀ j, j ≠ i → sinks[j]? = sinks2[j]?) :
    (∀ j, j ≠ i →
      (dispatchFrame frame sinks)[j]? = (dispatchFrame frame sinks2)[j]?)
    ∧ (∀ (j : Nat) (q : BQueue α), sinks[j]? = some q →
        (dispatchFrame frame sinks)[j]? = some (q.push frame).2)
    ∧ (∀ (st st2 : PipelineState α) (c : CycleCosts), st.mainQ = st2.mainQ →
        (ingestStep st frame c).2 = (ingestStep st2 frame c).2
        ∧ (ingestStep st frame c).1.mainQ = (ingestStep st2 frame c).1.mainQ)
    ∧ (∀ (comm bytes : List Nat) (ts : Int) (j ch : Nat), comm[j]? = some ch →
        (sendDataTasks comm bytes ts)[j]? = some (ch, bytes, ts)) := by
  refine ⟨?_, ?_, ?_, ?_⟩
  · intro j hj
    simp only [dispatchFrame, List.getElem?_map, hagree j hj]
  · intro j q hq
    simp only [dispatchFrame, List.getElem?_map, hq]
    rfl
  · intro st st2 c hmain
    exact ⟨rfl, by simp only [ingestStep, hmain]⟩
  · intro comm bytes ts j ch hch
    simp only [sendDataTasks, List.getElem?_map, hch]
    rfl

/-- Two concrete sink configurations that agree everywhere except sink
0, which is saturated in the first. -/
def sinksA : List (BQueue Nat) :=
  [{ cap := 1, policy := OverflowPolicy.dropOldest, items := [0] },
   { cap := 2, policy := OverflowPolicy.dropOldest, items := [] }]

/-- The same sinks with sink 0 empty instead of saturated. -/
def sinksB : List (BQueue Nat) :=
  [{ cap := 1, policy := OverflowPolicy.dropOldest, items := [] },
   { cap := 2, policy := OverflowPolicy.dropOldest, items := [] }]

theorem C1_full_sink_isolation_witness :
    (∀ j, j ≠ 0 → sinksA[j]? = sinksB[j]?)
    ∧ ((∀ j, j ≠ 0 →
          (dispatchFrame 7 sinksA)[j]? = (dispatchFrame 7 sinksB)[j]?)
       ∧ (∀ (j : Nat) (q : BQueue Nat), sinksA[j]? = some q →
           (dispatchFrame 7 sinksA)[j]? = some (q.push 7).2)
       ∧ (∀ (st st2 : PipelineState Nat) (c : CycleCosts), st.mainQ = st2.mainQ →
           (ingestStep st 7 c).2 = (ingestStep st2 7 c).2
           ∧ (ingestStep st 7 c).1.mainQ = (ingestStep st2 7 c).1.mainQ)
       ∧ (∀ (comm bytes : List Nat) (ts : Int) (j ch : Nat), comm[j]? = some ch →
           (sendDataTasks comm bytes ts)[j]? = some (ch, bytes, ts))) := by
  have hagree : ∀ j, j ≠ 0 → sinksA[j]? = sinksB[j]? := by
    intro j hj
    rcases j with _ | j
    · exact absurd rfl hj
    · rcases j with _ | j <;> rfl
  exact ⟨hagree, C1_full_sink_isolation 7 sinksA sinksB 0 hagree⟩

/-- Modelled from the spec: retry policy of a network sink worker
(cloud uplink / chase-car radio) — exponential backoff from a base
interval up to a capped ceiling, with a bounded retry count; the sink
worker loop is not among the repository's C++ sources. -/
structure RetryPolicy where
  baseMs : Nat
  capMs : Nat
  maxRetries : Nat
deriving Repr

/-- Backoff delay before the k-th retry: base interval doubled each
time, capped at the ceiling. -/
def backoffDelay (p : RetryPolicy) (k : Nat) : Nat :=
  min (p.baseMs * 2 ^ k) p.capMs

/-- Attempt transmission of one frame starting at attempt index `k`
with `n` attempts still allowed; `outcome j` tells whether the j-th
transmission attempt succeeds.  Returns the number of attempts actually
made and whether the frame was delivered. -/
def attemptFrame (outcome : Nat → Bool) : Nat → Nat → Nat × Bool
  | _, 0 => (0, false)
  | k, n + 1 =>
      if outcome k then (1, true)
      else
        let r := attemptFrame outcome (k + 1) n
        (r.1 + 1, r.2)

/-- Process one frame under a retry policy: the initial attempt plus at
most `maxRetries` retries. -/
def processFrame (p : RetryPolicy) (outcome : Nat → Bool) : Nat × Bool :=
  attemptFrame outcome 0 (p.maxRetries + 1)

/-- How much the sink's drop/error counter increases for this frame. -/
def frameDrops (p : RetryPolicy) (outcome : Nat → Bool) : Nat :=
  if (processFrame p outcome).2 then 0 else 1

/-- How many times this frame is delivered to the sink collaborator. -/
def frameDeliveries (p : RetryPolicy) (outcome : Nat → Bool) : Nat :=
  if (processFrame p outcome).2 then 1 else 0

theorem attemptFrame_le (outcome : Nat → Bool) (n k : Nat) :
    (attemptFrame outcome k n).1 ≤ n := by
  induction n generalizing k with
  | zero => simp [attemptFrame]
  | succ m ih =>
      unfold attemptFrame
      by_cases h : outcome k
      · simp [h]
      · rw [if_neg h]
        show (attemptFrame outcome (k + 1) m).1 + 1 ≤ m + 1
        have := ih (k + 1)
        omega

theorem attemptFrame_all_fail (outcome : Nat → Bool)
    (hfail : ∀ j, outcome j = false) (n k : Nat) :
    attemptFrame outcome k n = (n, false) := by
  induction n generalizing k with
  | zero => simp [attemptFrame]
  | succ m ih =>
      unfold attemptFrame
      have h : ¬ (outcome k = true) := by simp [hfail k]
      rw [if_neg h, ih (k + 1)]

/-- C3: a network sink worker retries a persistently failing frame with
exponential backoff (base interval doubled per retry, capped at the
ceiling) at most the configured maximum number of times: the total
attempt count never exceeds `maxRetries + 1`; when every attempt fails,
retries cease after exactly `maxRetries + 1` attempts, the frame is
dropped and the drop counter is incremented exactly once; and no frame
is ever delivered to the sink collaborator twice. -/
theorem C3_retry_backoff_bounded (p : RetryPolicy) (outcome : Nat → Bool) :
    (processFrame p outcome).1 ≤ p.maxRetries + 1
    ∧ ((∀ j, outcome j = false) →
        (processFrame p outcome).1 = p.maxRetries + 1
        ∧ frameDrops p outcome = 1
        ∧ frameDeliveries p outcome = 0)
    ∧ frameDeliveries p outcome ≤ 1
    ∧ (∀ k, backoffDelay p k ≤ p.capMs)
    ∧ (∀ k, p.baseMs * 2 ^ k ≤ p.capMs → backoffDelay p k = p.baseMs * 2 ^ k) := by
  refine ⟨attemptFrame_le outcome (p.maxRetries + 1) 0, ?_, ?_, ?_, ?_⟩
  · intro hfail
    have h := attemptFrame_all_fail outcome hfail (p.maxRetries + 1) 0
    refine ⟨by simp [processFrame, h], ?_, ?_⟩
    · simp [frameDrops, processFrame, h]
    · simp [frameDeliveries, processFrame, h]
  · unfold frameDeliveries
    by_cases h : (processFrame p outcome).2 <;> simp [h]
  · intro k
    exact Nat.min_le_right _ _
  · intro k hk
    simpa [backoffDelay] using Nat.min_eq_left hk

/-- A concrete retry policy: 100 ms base, 5 s ceiling, 3 retries. -/
def lteRetryPolicy : RetryPolicy := { baseMs := 100, capMs := 5000, maxRetries := 3 }

theorem C3_retry_backoff_bounded_witness :
    (processFrame lteRetryPolicy (fun _ => false)).1 ≤ lteRetryPolicy.maxRetries + 1
    ∧ ((∀ j : Nat, (fun _ => false) j = false) →
        (processFrame lteRetryPolicy (fun _ => false)).1 = lteRetryPolicy.maxRetries + 1
        ∧ frameDrops lteRetryPolicy (fun _ => false) = 1
        ∧ frameDeliveries lteRetryPolicy (fun _ => false) = 0)
    ∧ frameDeliveries lteRetryPolicy (fun _ => false) ≤ 1
    ∧ (∀ k, backoffDelay lteRetryPolicy k ≤ lteRetryPolicy.capMs)
    ∧ (∀ k, lteRetryPolicy.baseMs * 2 ^ k ≤ lteRetryPolicy.capMs →
        backoffDelay lteRetryPolicy k = lteRetryPolicy.baseMs * 2 ^ k) :=
  C3_retry_backoff_bounded lteRetryPolicy (fun _ => false)

/-- LapState, from the `LapData` struct of `docs/WORKFLOW_SUMMARY.md`:
`lap_count` (uint16, 0-9999), `current_section` (uint8, 0-255),
`lap_duration` (uint32 milliseconds, capped at 600000). -/
structure LapState where
  lap_count : Nat
  current_section : Nat
  lap_duration_ms : Nat
deriving DecidableEq, Repr

/-- Cap on `lap_duration` from `docs/WORKFLOW_SUMMARY.md` (600000 ms =
10 minutes). -/
def LAP_DURATION_CAP : Nat := 600000

/-- Modelled from the spec: the per-cycle observation handed to the lap
state update — whether a lap boundary was crossed, the track section
the car is in, and the elapsed lap time; the lap-timing engine itself
is an external Python collaborator not among the repository's C++
sources. -/
structure LapObs where
  lapCompleted : Bool
  newSection : Nat
  elapsedMs : Nat
deriving DecidableEq, Repr

/-- One successful lap computation: the lap counter advances by one
exactly on a completed lap, the section is stored as a uint8, and the
duration is clamped to its cap. -/
def lapUpdate (s : LapState) (o : LapObs) : LapState :=
  { lap_count := s.lap_count + (if o.lapCompleted then 1 else 0),
    current_section := o.newSection % 256,
    lap_duration_ms := min o.elapsedMs LAP_DURATION_CAP }

/-- One ingest-side lap step: on computation failure (`none`) the
previous LapState is reused unchanged. -/
def lapStep (s : LapState) (r : Option LapObs) : LapState :=
  match r with
  | none => s
  | some o => lapUpdate s o

/-- A run: the lap state folded over every cycle's computation result. -/
def lapRun (s : LapState) (rs : List (Option LapObs)) : LapState :=
  rs.foldl lapStep s

/-- Well-formedness of a LapState: section is a byte and the duration
respects its cap. -/
def LapWF (s : LapState) : Prop :=
  s.current_section ≤ 255 ∧ s.lap_duration_ms ≤ LAP_DURATION_CAP

theorem lapStep_count_le (s : LapState) (r : Option LapObs) :
    s.lap_count ≤ (lapStep s r).lap_count := by
  cases r with
  | none => exact Nat.le_refl _
  | some o =>
      show s.lap_count ≤ s.lap_count + (if o.lapCompleted then 1 else 0)
      exact Nat.le_add_right _ _

theorem lapRun_count_le (s : LapState) (rs : List (Option LapObs)) :
    s.lap_count ≤ (lapRun s rs).lap_count := by
  induction rs generalizing s with
  | nil => exact Nat.le_refl _
  | cons r rest ih =>
      exact Nat.le_trans (lapStep_count_le s r) (ih (lapStep s r))

theorem lapStep_wf (s : LapState) (r : Option LapObs) (hwf : LapWF s) :
    LapWF (lapStep s r) := by
  cases r with
  | none => exact hwf
  | some o =>
      constructor
      · show o.newSection % 256 ≤ 255
        have := Nat.mod_lt o.newSection (show 0 < 256 by norm_num)
        omega
      · exact Nat.min_le_right _ _

theorem lapRun_wf (s : LapState) (rs : List (Option LapObs)) (hwf : LapWF s) :
    LapWF (lapRun s rs) := by
  induction rs generalizing s with
  | nil => exact hwf
  | cons r rest ih => exact ih (lapStep s r) (lapStep_wf s r hwf)

/-- C4: across any run, `lap_count` is monotonically non-decreasing,
`current_section` stays in [0, 255], `lap_duration_ms` stays bounded by
its 600000 ms cap, and a lap-computation failure leaves the previous
LapState in place unchanged. -/
theorem C4_lapstate_invariants (s : LapState) (rs : List (Option LapObs))
    (hwf : LapWF s) :
    s.lap_count ≤ (lapRun s rs).lap_count
    ∧ (lapRun s rs).current_section ≤ 255
    ∧ (lapRun s rs).lap_duration_ms ≤ LAP_DURATION_CAP
    ∧ (∀ t : LapState, lapStep t none = t) := by
  have hwf2 := lapRun_wf s rs hwf
  exact ⟨lapRun_count_le s rs, hwf2.1, hwf2.2, fun t => rfl⟩

/-- A concrete initial lap state. -/
def lapZero : LapState := { lap_count := 0, current_section := 3, lap_duration_ms := 100 }

/-- A concrete lap run: a completed lap with an out-of-range raw
section and over-cap elapsed time, then a computation failure. -/
def lapObsRun : List (Option LapObs) :=
  [some { lapCompleted := true, newSection := 300, elapsedMs := 700000 }, none]

theorem C4_lapstate_invariants_witness :
    LapWF lapZero
    ∧ (lapZero.lap_count ≤ (lapRun lapZero lapObsRun).lap_count
       ∧ (lapRun lapZero lapObsRun).current_section ≤ 255
       ∧ (lapRun lapZero lapObsRun).lap_duration_ms ≤ LAP_DURATION_CAP
       ∧ (∀ t : LapState, lapStep t none = t)) :=
  ⟨by constructor <;> norm_num [lapZero, LAP_DURATION_CAP, LapWF],
    C4_lapstate_invariants lapZero lapObsRun
      (by constructor <;> norm_num [lapZero, LAP_DURATION_CAP, LapWF])⟩

/-- PositionFix, from the spec data model: latitude, longitude, a
validity flag (fix age omitted: it is never read by the core). -/
structure PositionFix where
  lat : Int
  lon : Int
  valid : Bool
deriving DecidableEq, Repr

/-- Modelled from the spec: the state the ingest loop carries between
cycles — the last cached position fix and the current LapState; the
ingest loop is not among the repository's C++ sources. -/
structure IngestState where
  cachedFix : PositionFix
  lap : LapState
deriving DecidableEq, Repr

/-- One ingest cycle with respect to the position provider: on
timeout/stale (`none`) reuse the cached fix, hold the LapState
unchanged and publish staleness flag `true`; on a fresh fix, cache it,
run the lap update and publish staleness flag `false`.  The returned
Bool is the staleness flag placed in the published HealthSnapshot. -/
def ingestCycle (st : IngestState) (pos : Option PositionFix) (o : LapObs) :
    IngestState × Bool :=
  match pos with
  | none => (st, true)
  | some p => ({ cachedFix := p, lap := lapUpdate st.lap o }, false)

/-- Run the ingest loop over a list of cycles, collecting the published
staleness flags; every cycle is processed (no failure terminates the
loop). -/
def ingestRun : IngestState → List (Option PositionFix × LapObs) →
    IngestState × List Bool
  | st, [] => (st, [])
  | st, (p, o) :: rest =>
      let r := ingestCycle st p o
      let rr := ingestRun r.1 rest
      (rr.1, r.2 :: rr.2)

theorem ingestRun_flags (st : IngestState)
    (inputs : List (Option PositionFix × LapObs)) :
    (ingestRun st inputs).2 = inputs.map (fun x => x.1.isNone) := by
  induction inputs generalizing st with
  | nil => rfl
  | cons x rest ih =>
      obtain ⟨p, o⟩ := x
      cases p with
      | none => simp [ingestRun, ingestCycle, ih]
      | some q => simp [ingestRun, ingestCycle, ih]

theorem ingestRun_all_stale (st : IngestState)
    (inputs : List (Option PositionFix × LapObs))
    (hstale : ∀ x ∈ inputs, x.1 = none) :
    (ingestRun st inputs).1 = st := by
  induction inputs generalizing st with
  | nil => rfl
  | cons x rest ih =>
      obtain ⟨p, o⟩ := x
      have hp : p = none := hstale (p, o) (List.mem_cons_self _ _)
      subst hp
      have hrest : ∀ y ∈ rest, y.1 = none := fun y hy =>
        hstale y (List.mem_cons_of_mem _ hy)
      simp [ingestRun, ingestCycle, ih st hrest]

/-- C5: when the position provider times out or returns stale, the
cycle reuses the cached PositionFix and publishes a staleness flag
instead of blocking: across any run of consecutive stale cycles the
cached fix, `lap_count` and `current_section` hold their prior values
unchanged; the published staleness flag is true for exactly the stale
cycles (it is `isNone` of each cycle's position result); and the loop
processes every cycle, so no such failure terminates it. -/
theorem C5_stale_position_degrades (st : IngestState) (o : LapObs)
    (inputs inputs2 : List (Option PositionFix × LapObs))
    (hstale : ∀ x ∈ inputs, x.1 = none) :
    ingestCycle st none o = (st, true)
    ∧ (ingestRun st inputs).1 = st
    ∧ (∀ p : PositionFix, (ingestCycle st (some p) o).2 = false)
    ∧ (ingestRun st inputs2).2 = inputs2.map (fun x => x.1.isNone)
    ∧ (ingestRun st inputs2).2.length = inputs2.length := by
  refine ⟨rfl, ingestRun_all_stale st inputs hstale, fun p => rfl, ?_, ?_⟩
  · exact ingestRun_flags st inputs2
  · rw [ingestRun_flags st inputs2, List.length_map]

/-- A concrete ingest state and observation. -/
def ingestZero : IngestState :=
  { cachedFix := { lat := 43, lon := -89, valid := true }, lap := lapZero }

/-- A concrete lap observation. -/
def obsZero : LapObs := { lapCompleted := false, newSection := 5, elapsedMs := 2000 }

theorem C5_stale_position_degrades_witness :
    (∀ x ∈ [((none : Option PositionFix), obsZero), (none, obsZero),
            (none, obsZero)], x.1 = none)
    ∧ (ingestCycle ingestZero none obsZero = (ingestZero, true)
       ∧ (ingestRun ingestZero [(none, obsZero), (none, obsZero),
            (none, obsZero)]).1 = ingestZero
       ∧ (∀ p : PositionFix, (ingestCycle ingestZero (some p) obsZero).2 = false)
       ∧ (ingestRun ingestZero [(some { lat := 1, lon := 2, valid := true }, obsZero),
            (none, obsZero)]).2
          = [(some { lat := 1, lon := 2, valid := true }, obsZero),
              ((none : Option PositionFix), obsZero)].map (fun x => x.1.isNone)
       ∧ (ingestRun ingestZero [(some { lat := 1, lon := 2, valid := true }, obsZero),
            (none, obsZero)]).2.length
          = [(some { lat := 1, lon := 2, valid := true }, obsZero),
              ((none : Option PositionFix), obsZero)].length) :=
  ⟨by decide,
    C5_stale_position_degrades ingestZero obsZero
      [(none, obsZero), (none, obsZero), (none, obsZero)]
      [(some { lat := 1, lon := 2, valid := true }, obsZero), (none, obsZero)]
      (by decide)⟩

/-- Worker lifecycle states, from the spec's worker state machine
(`STARTING -> RUNNING -> DRAINING -> STOPPED`, with `FAILED` for
critical faults). -/
inductive WState where
  | STARTING
  | RUNNING
  | DRAINING
  | STOPPED
  | FAILED
deriving DecidableEq, Repr

/-- Modelled from the spec: a sink worker as seen by the shutdown
protocol — its lifecycle state and its queue contents; the worker loop
is not among the repository's C++ sources (the existing C++ teardown,
`Telemetry::~Telemetry`, is the unbounded wait-for-done pattern the
spec replaces with this bounded drain). -/
structure Worker (alpha : Type) where
  state : WState
  queue : List alpha
deriving Repr

/-- Bounded drain after the shutdown signal: the worker passes through
`DRAINING`, consuming one queued frame per step, until its queue is
empty or the grace budget of steps is exhausted; whatever remains at
the deadline is discarded unconditionally and the worker is `STOPPED`.
Returns the final worker and the frames actually handed to the
collaborator during the drain. -/
def drainRun {alpha : Type} : Nat → Worker alpha → Worker alpha × List alpha
  | 0, _ => ({ state := WState.STOPPED, queue := [] }, [])
  | n + 1, w =>
      match w.queue with
      | [] => ({ state := WState.STOPPED, queue := [] }, [])
      | x :: rest =>
          let r := drainRun n { state := WState.DRAINING, queue := rest }
          (r.1, x :: r.2)

theorem drainRun_stopped {alpha : Type} (g : Nat) (w : Worker alpha) :
    (drainRun g w).1.state = WState.STOPPED ∧ (drainRun g w).1.queue = [] := by
  induction g generalizing w with
  | zero => exact ⟨rfl, rfl⟩
  | succ n ih =>
      cases h : w.queue with
      | nil => simp [drainRun, h]
      | cons x rest =>
          have := ih { state := WState.DRAINING, queue := rest }
          simp only [drainRun, h]
          exact this

theorem drainRun_processed {alpha : Type} (g : Nat) (w : Worker alpha) :
    (drainRun g w).2 = w.queue.take g := by
  induction g generalizing w with
  | zero => simp [drainRun]
  | succ n ih =>
      cases h : w.queue with
      | nil => simp [drainRun, h]
      | cons x rest =>
          simp only [drainRun, h, List.take_succ_cons]
          rw [ih { state := WState.DRAINING, queue := rest }]

/-- C6: after the shutdown signal, a draining worker always reaches
`STOPPED` within the grace budget even if its queue was non-empty at
the signal (the drain hands over at most `grace` frames, one per step);
any queue contents remaining at the deadline are discarded
unconditionally (the final queue is empty in every case); the frames
handed over are exactly the oldest prefix of the queue; and no frame is
observed more often during the drain than it occurred in the queue, so
none is observed twice. -/
theorem C6_shutdown_drain_bounded {alpha : Type} [DecidableEq alpha]
    (grace : Nat) (w : Worker alpha) :
    (drainRun grace w).1.state = WState.STOPPED
    ∧ (drainRun grace w).1.queue = []
    ∧ (drainRun grace w).2 = w.queue.take grace
    ∧ (drainRun grace w).2.length ≤ grace
    ∧ ∀ x : alpha, (drainRun grace w).2.count x ≤ w.queue.count x := by
  obtain ⟨hst, hq⟩ := drainRun_stopped grace w
  have hp := drainRun_processed grace w
  refine ⟨hst, hq, hp, ?_, ?_⟩
  · rw [hp, List.length_take]
    exact Nat.min_le_left _ _
  · intro x
    rw [hp]
    exact (List.take_sublist grace w.queue).count_le x

/-- Alert levels published by the health monitor. -/
inductive Alert where
  | OK
  | WARNING
  | ERROR
deriving DecidableEq, Repr

/-- Depth and capacity of one queue, as sampled by the monitor. -/
structure QueueStat where
  depth : Nat
  capacity : Nat
deriving DecidableEq, Repr

/-- Liveness sample of one worker: whether it is a critical worker
(ingest, dispatcher) and its current state. -/
structure WorkerStat where
  critical : Bool
  state : WState
deriving DecidableEq, Repr

/-- A queue is over the alert threshold when its depth exceeds 80% of
its capacity (`README.md`: alert if > 80% full). -/
def queueHigh (q : QueueStat) : Bool :=
  decide (q.capacity * 80 < q.depth * 100)

/-- A critical worker that is not `RUNNING`. -/
def criticalDown (w : WorkerStat) : Bool :=
  w.critical && decide (w.state ≠ WState.RUNNING)

/-- Modelled from the spec: the health monitor's alert classification —
ERROR when any critical worker is not `RUNNING`, otherwise WARNING when
any queue exceeds 80% of capacity or the rolling ingest latency exceeds
its budget, otherwise OK; the monitor is not among the repository's C++
sources. -/
def classify (qs : List QueueStat) (ws : List WorkerStat)
    (latency budget : Nat) : Alert :=
  if ws.any criticalDown then Alert.ERROR
  else if qs.any queueHigh || decide (budget < latency) then Alert.WARNING
  else Alert.OK

/-- One monitor sampling step over the pipeline: it reads queue depths
and produces an alert, and returns the pipeline state untouched — the
monitor observes and reports only. -/
def monitorStep {alpha : Type} (ps : PipelineState alpha) (ws : List WorkerStat)
    (latency budget : Nat) : PipelineState alpha × Alert :=
  (ps,
    classify (ps.sinkQs.map fun q => { depth := q.items.length, capacity := q.cap })
      ws latency budget)

theorem classify_error_iff (qs : List QueueStat) (ws : List WorkerStat)
    (latency budget : Nat) :
    classify qs ws latency budget = Alert.ERROR ↔ ws.any criticalDown = true := by
  unfold classify
  split_ifs with h1 h2
  · simp [h1]
  · simp [h1]
  · simp [h1]

theorem classify_warning_iff (qs : List QueueStat) (ws : List WorkerStat)
    (latency budget : Nat) (hok : ws.any criticalDown = false) :
    classify qs ws latency budget = Alert.WARNING
      ↔ (qs.any queueHigh || decide (budget < latency)) = true := by
  unfold classify
  rw [hok]
  simp only [Bool.false_eq_true, if_false]
  split_ifs with h2
  · simp [h2]
  · simp [h2]

theorem criticalDown_iff (w : WorkerStat) :
    criticalDown w = true ↔ w.critical = true ∧ w.state ≠ WState.RUNNING := by
  unfold criticalDown
  rw [Bool.and_eq_true, decide_eq_true_iff]

/-- C8: a published health classification is ERROR exactly when some
critical worker (ingest, dispatcher) is not `RUNNING`; when every
critical worker is `RUNNING`, it is WARNING exactly when some queue's
depth exceeds 80% of its capacity or the rolling ingest latency exceeds
the ingest budget; and the monitor step leaves the pipeline state
untouched — it observes and reports, performing no corrective action. -/
theorem C8_health_monitor_classification (qs : List QueueStat)
    (ws : List WorkerStat) (latency budget : Nat) :
    (classify qs ws latency budget = Alert.ERROR
      ↔ ∃ w ∈ ws, w.critical = true ∧ w.state ≠ WState.RUNNING)
    ∧ ((∀ w ∈ ws, criticalDown w = false) →
        (classify qs ws latency budget = Alert.WARNING
          ↔ ((∃ q ∈ qs, q.capacity * 80 < q.depth * 100) ∨ budget < latency)))
    ∧ (∀ ps : PipelineState Nat, (monitorStep ps ws latency budget).1 = ps) := by
  refine ⟨?_, ?_, fun ps => rfl⟩
  · rw [classify_error_iff, List.any_eq_true]
    constructor
    · rintro ⟨w, hw, hcd⟩
      exact ⟨w, hw, (criticalDown_iff w).mp hcd⟩
    · rintro ⟨w, hw, hcrit, hstate⟩
      exact ⟨w, hw, (criticalDown_iff w).mpr ⟨hcrit, hstate⟩⟩
  · intro hall
    have hok : ws.any criticalDown = false := by
      rw [List.any_eq_false]
      intro w hw
      rw [hall w hw]
      exact Bool.false_ne_true
    rw [classify_warning_iff qs ws latency budget hok]
    rw [Bool.or_eq_true, List.any_eq_true, decide_eq_true_iff]
    constructor
    · rintro (⟨q, hq, hhigh⟩ | hlat)
      · exact Or.inl ⟨q, hq, by simpa [queueHigh] using hhigh⟩
      · exact Or.inr hlat
    · rintro (⟨q, hq, hhigh⟩ | hlat)
      · exact Or.inl ⟨q, hq, by simpa [queueHigh] using hhigh⟩
      · exact Or.inr hlat

/-- Concrete monitor samples: one queue over threshold, all critical
workers running. -/
def qsSample : List QueueStat := [{ depth := 9, capacity := 10 }]

/-- Concrete worker samples. -/
def wsSample : List WorkerStat :=
  [{ critical := true, state := WState.RUNNING },
   { critical := false, state := WState.STOPPED }]

theorem C8_health_monitor_classification_witness :
    (classify qsSample wsSample 12 50 = Alert.ERROR
      ↔ ∃ w ∈ wsSample, w.critical = true ∧ w.state ≠ WState.RUNNING)
    ∧ ((∀ w ∈ wsSample, criticalDown w = false) →
        (classify qsSample wsSample 12 50 = Alert.WARNING
          ↔ ((∃ q ∈ qsSample, q.capacity * 80 < q.depth * 100) ∨ 50 < 12)))
    ∧ (∀ ps : PipelineState Nat, (monitorStep ps wsSample 12 50).1 = ps) :=
  C8_health_monitor_classification qsSample wsSample 12 50

/-- Timestamp byte offsets, embedded from `struct timestampOffsets` in
`backendProcesses.h`: the backend already receives byte offsets as
constructor configuration rather than constants. -/
structure timestampOffsets where
  hr : Int
  mn : Int
  sc : Int
  ms : Int
  unix : Int
deriving DecidableEq, Repr

/-- Little-endian 2-byte serialization of `lap_count` (uint16 per
`docs/WORKFLOW_SUMMARY.md`). -/
def u16le (n : Nat) : List Nat := [n % 256, n / 256 % 256]

/-- Little-endian 4-byte serialization of `lap_duration` (uint32 per
`docs/WORKFLOW_SUMMARY.md`). -/
def u32le (n : Nat) : List Nat :=
  [n % 256, n / 256 % 256, n / 65536 % 256, n / 16777216 % 256]

/-- Write a run of bytes into a byte list starting at offset `i`
(writes beyond the end are dropped, as with `List.set`). -/
def writeBytes : List Nat → Nat → List Nat → List Nat
  | bs, _, [] => bs
  | bs, i, v :: vs => writeBytes (bs.set i v) (i + 1) vs

theorem writeBytes_length (vs bs : List Nat) (i : Nat) :
    (writeBytes bs i vs).length = bs.length := by
  induction vs generalizing bs i with
  | nil => rfl
  | cons v rest ih =>
      show (writeBytes (bs.set i v) (i + 1) rest).length = bs.length
      rw [ih (bs.set i v) (i + 1), List.length_set]

theorem writeBytes_get_out (vs bs : List Nat) (i k : Nat)
    (hk : k < i ∨ i + vs.length ≤ k) : (writeBytes bs i vs)[k]? = bs[k]? := by
  induction vs generalizing bs i with
  | nil => rfl
  | cons v rest ih =>
      show (writeBytes (bs.set i v) (i + 1) rest)[k]? = bs[k]?
      have hik : i ≠ k := by
        rcases hk with h | h
        · omega
        · simp only [List.length_cons] at h
          omega
      rw [ih (bs.set i v) (i + 1) (by
        rcases hk with h | h
        · exact Or.inl (by omega)
        · simp only [List.length_cons] at h
          exact Or.inr (by omega))]
      exact List.getElem?_set_ne hik

theorem writeBytes_get_in (vs bs : List Nat) (i j : Nat) (hj : j < vs.length)
    (hbound : i + vs.length ≤ bs.length) :
    (writeBytes bs i vs)[i + j]? = vs[j]? := by
  induction vs generalizing bs i j with
  | nil => simp at hj
  | cons v rest ih =>
      show (writeBytes (bs.set i v) (i + 1) rest)[i + j]? = (v :: rest)[j]?
      cases j with
      | zero =>
          simp only [Nat.add_zero]
          rw [writeBytes_get_out rest (bs.set i v) (i + 1) i (Or.inl (by omega))]
          rw [List.getElem?_set_self (by
            simp only [List.length_cons] at hbound
            omega)]
          rw [List.getElem?_cons_zero]
      | succ m =>
          have hidx : i + (m + 1) = (i + 1) + m := by omega
          rw [hidx, ih (bs.set i v) (i + 1) m
            (by simp only [List.length_cons] at hj; omega)
            (by
              rw [List.length_set]
              simp only [List.length_cons] at hbound
              omega)]
          rw [List.getElem?_cons_succ]

/-- Configured byte offsets for the injected lap fields: where in the
augmented frame `lap_count`, `current_section` and `lap_duration` are
serialized.  Supplied as configuration to the serialization step — not
a constant owned by the core. -/
structure LapOffsets where
  lapCountOff : Nat
  sectionOff : Nat
  durationOff : Nat
deriving DecidableEq, Repr

/-- Two byte regions do not overlap. -/
def disjointRegions (a la b lb : Nat) : Prop := a + la ≤ b ∨ b + lb ≤ a

/-- An offsets configuration is well formed for a frame of `n` bytes:
every lap-field region fits within the frame and the three regions are
pairwise disjoint. -/
def LapOffsets.WF (o : LapOffsets) (n : Nat) : Prop :=
  o.lapCountOff + 2 ≤ n ∧ o.sectionOff + 1 ≤ n ∧ o.durationOff + 4 ≤ n
  ∧ disjointRegions o.lapCountOff 2 o.sectionOff 1
  ∧ disjointRegions o.lapCountOff 2 o.durationOff 4
  ∧ disjointRegions o.sectionOff 1 o.durationOff 4

/-- A byte position that belongs to one of the configured lap-field
regions. -/
def inLapRegion (o : LapOffsets) (k : Nat) : Prop :=
  (o.lapCountOff ≤ k ∧ k < o.lapCountOff + 2)
  ∨ (o.sectionOff ≤ k ∧ k < o.sectionOff + 1)
  ∨ (o.durationOff ≤ k ∧ k < o.durationOff + 4)

/-- Serialize the LapState into the frame at the configured byte
offsets: 2 bytes of `lap_count`, 1 byte of `current_section`, 4 bytes
of `lap_duration`, each little-endian, at the offsets the configuration
dictates. -/
def augment (frame : List Nat) (l : LapState) (o : LapOffsets) : List Nat :=
  writeBytes
    (writeBytes (writeBytes frame o.lapCountOff (u16le l.lap_count))
      o.sectionOff [l.current_section % 256])
    o.durationOff (u32le l.lap_duration_ms)

/-- The augmented frame built from `frame`, `l` and the offsets
configuration `o` carries the lap fields at exactly the configured
offsets and agrees with the raw frame everywhere else. -/
def AugmentCorrect (frame : List Nat) (l : LapState) (o : LapOffsets) : Prop :=
  (∀ j, j < 2 → (augment frame l o)[o.lapCountOff + j]? = (u16le l.lap_count)[j]?)
  ∧ (augment frame l o)[o.sectionOff]? = some (l.current_section % 256)
  ∧ (∀ j, j < 4 →
      (augment frame l o)[o.durationOff + j]? = (u32le l.lap_duration_ms)[j]?)
  ∧ (∀ k, ¬ inLapRegion o k → (augment frame l o)[k]? = frame[k]?)
  ∧ (augment frame l o).length = frame.length

theorem augment_correct (frame : List Nat) (l : LapState) (o : LapOffsets)
    (hwf : o.WF frame.length) : AugmentCorrect frame l o := by
  obtain ⟨hb1, hb2, hb3, hd12, hd13, hd23⟩ := hwf
  have hlen1 : (writeBytes frame o.lapCountOff (u16le l.lap_count)).length
      = frame.length := writeBytes_length _ _ _
  have hlen2 : (writeBytes (writeBytes frame o.lapCountOff (u16le l.lap_count))
      o.sectionOff [l.current_section % 256]).length = frame.length := by
    rw [writeBytes_length, hlen1]
  refine ⟨?_, ?_, ?_, ?_, ?_⟩
  · intro j hj
    unfold augment
    rw [writeBytes_get_out (u32le l.lap_duration_ms) _ o.durationOff
      (o.lapCountOff + j) (by
        unfold disjointRegions at hd13
        simp only [u32le, List.length_cons, List.length_nil]
        omega)]
    rw [writeBytes_get_out [l.current_section % 256] _ o.sectionOff
      (o.lapCountOff + j) (by
        unfold disjointRegions at hd12
        simp only [List.length_cons, List.length_nil]
        omega)]
    exact writeBytes_get_in (u16le l.lap_count) frame o.lapCountOff j
      (by simp only [u16le, List.length_cons, List.length_nil]; omega)
      (by simp only [u16le, List.length_cons, List.length_nil]; omega)
  · unfold augment
    rw [writeBytes_get_out (u32le l.lap_duration_ms) _ o.durationOff
      o.sectionOff (by
        unfold disjointRegions at hd23
        simp only [u32le, List.length_cons, List.length_nil]
        omega)]
    have hs := writeBytes_get_in [l.current_section % 256]
      (writeBytes frame o.lapCountOff (u16le l.lap_count)) o.sectionOff 0
      (by simp) (by
        rw [hlen1]
        simp only [List.length_cons, List.length_nil]
        omega)
    rw [Nat.add_zero] at hs
    rw [hs]
    rfl
  · intro j hj
    unfold augment
    exact writeBytes_get_in (u32le l.lap_duration_ms) _ o.durationOff j
      (by simp only [u32le, List.length_cons, List.length_nil]; omega)
      (by
        rw [hlen2]
        simp only [u32le, List.length_cons, List.length_nil]
        omega)
  · intro k hk
    unfold inLapRegion at hk
    push_neg at hk
    obtain ⟨hk1, hk2, hk3⟩ := hk
    unfold augment
    rw [writeBytes_get_out (u32le l.lap_duration_ms) _ o.durationOff k
      (by
        simp only [u32le, List.length_cons, List.length_nil]
        omega)]
    rw [writeBytes_get_out [l.current_section % 256] _ o.sectionOff k
      (by
        simp only [List.length_cons, List.length_nil]
        omega)]
    rw [writeBytes_get_out (u16le l.lap_count) frame o.lapCountOff k
      (by
        simp only [u16le, List.length_cons, List.length_nil]
        omega)]
  · unfold augment
    rw [writeBytes_length, hlen2]

/-- C9: the byte offsets of the serialized LapState fields are supplied
to the serialization step as configuration (the `LapOffsets` argument,
mirroring the `timestampOffsets` constructor configuration already in
`backendProcesses.h`), not a hard-coded constant: for any two
well-formed offset configurations, the same raw frame and LapState
yield augmented frames whose lap fields sit at the respectively
configured offsets, with every byte outside the configured regions
identical to the raw frame. -/
theorem C9_lap_offsets_configuration (frame : List Nat) (l : LapState)
    (o1 o2 : LapOffsets) (h1 : o1.WF frame.length) (h2 : o2.WF frame.length) :
    AugmentCorrect frame l o1 ∧ AugmentCorrect frame l o2 :=
  ⟨augment_correct frame l o1 h1, augment_correct frame l o2 h2⟩

/-- A concrete 12-byte raw frame. -/
def frame12 : List Nat := [10, 11, 12, 13, 14, 15, 16, 17, 18, 19, 20, 21]

/-- A concrete offsets configuration placing the lap fields at the end
of the frame (the inline append layout of `docs/WORKFLOW_SUMMARY.md`). -/
def offsAppend : LapOffsets := { lapCountOff := 5, sectionOff := 7, durationOff := 8 }

/-- A concrete alternative offsets configuration placing the lap fields
at the front. -/
def offsFront : LapOffsets := { lapCountOff := 0, sectionOff := 2, durationOff := 3 }

theorem C9_lap_offsets_configuration_witness :
    offsAppend.WF frame12.length ∧ offsFront.WF frame12.length
    ∧ (AugmentCorrect frame12 lapZero offsAppend
       ∧ AugmentCorrect frame12 lapZero offsFront) :=
  ⟨by simp [LapOffsets.WF, disjointRegions, frame12, offsAppend],
   by simp [LapOffsets.WF, disjointRegions, frame12, offsFront],
   C9_lap_offsets_configuration frame12 lapZero offsAppend offsFront
     (by simp [LapOffsets.WF, disjointRegions, frame12, offsAppend])
     (by simp [LapOffsets.WF, disjointRegions, frame12, offsFront])⟩

/-- The members of class `SendDataTask` as declared in
`backend/telemetrylib/telemetry.h` (lines 68-70): the channel pointer,
the byte buffer captured at construction, and the timestamp. -/
def sendDataTaskMembers : List String := ["channel", "bytes", "timestamp"]

/-- The identifier the body of `SendDataTask::run` passes as the first
argument of the transmit call (`telemetry.h` line 65:
`channel->sendData(data, timestamp);`). -/
def runTransmitArg1 : String := "data"

/-- The identifier the body of `SendDataTask::run` passes as the second
argument of the transmit call. -/
def runTransmitArg2 : String := "timestamp"

/-- The member in which the constructor stores the byte buffer
(`telemetry.h` line 60: `bytes(bytes)`). -/
def capturedBufferMember : String := "bytes"

/-- C10 (code bug): `SendDataTask::run` is supposed to invoke
`sendData` with the byte buffer captured at construction, but the
identifier it passes, `data`, names no member of `SendDataTask` (and no
local or inherited entity); the captured buffer sits in the member
`bytes`, which `run` never reads.  Only the timestamp argument resolves
to a captured member. -/
theorem C10_run_arg_not_captured_buffer :
    runTransmitArg1 ∉ sendDataTaskMembers
    ∧ capturedBufferMember ∈ sendDataTaskMembers
    ∧ runTransmitArg2 ∈ sendDataTaskMembers
    ∧ runTransmitArg1 ≠ capturedBufferMember := by
  refine ⟨?_, ?_, ?_, ?_⟩ <;> decide

end SC2
